import Mathlib

/-!
Shallow embedding of the repository's notebooks (a Part 3 "Training Neural
Networks" notebook and a Part 6 "Saving and Loading Models" notebook).

The embedding covers:
* the parameter data model (weight matrices / bias vectors with rational
  entries standing in for the library's floating-point tensors);
* the `fc_model.Network` feed-forward classifier, its `state_dict`, the
  `checkpoint` dictionary written by the Part 6 notebook and the
  `load_checkpoint` function, together with the external library's
  (strict) `load_state_dict` shape-checked parameter assignment;
* the Part 3 training loop (per-batch zero-grad / forward / loss /
  backward / optimizer-step event trace, `running_loss` accounting and
  the periodic loss printout);
* the `fc_model.train` loop called in Part 6 (per-batch loss plus a
  periodic evaluation pass over a held-out split);
* the Part 3 single demonstration training step and its `resize_`-based
  batch flattening.

`fc_model.py` is imported by the Part 6 notebook but is not among the
source files; the `Network` class, its `forward`, and `fc_model.train`
are modelled from the spec's words and from the architecture, state-dict
keys and training output printed in the notebook.  Everything else is
translated directly from the notebook cells.
-/

namespace FcModel

/-- A parameter tensor: a weight matrix or a bias vector.  Rational entries
stand in for the library's floating-point values. -/
inductive Tensor where
  | mat (rows : List (List ℚ))
  | vec (entries : List ℚ)
  deriving DecidableEq

/-- The shape of a tensor as the library reports it: rows × columns for a
matrix (an empty matrix has no rows to measure, giving column count 0),
length for a vector. -/
def Tensor.shape : Tensor → List Nat
  | .mat rows => [rows.length, (rows.headD []).length]
  | .vec v => [v.length]

/-- Structured form of the parameter names appearing in the model's state
dict.  The Part 6 notebook prints exactly the keys
`hidden_layers.<i>.weight`, `hidden_layers.<i>.bias`, `output.weight`,
`output.bias`; `ParamKey.render` produces those dotted strings. -/
inductive ParamKey where
  | hiddenWeight (i : Nat)
  | hiddenBias (i : Nat)
  | outputWeight
  | outputBias
  deriving DecidableEq

/-- The dotted parameter name used by the library for a `ParamKey`
(layer name followed by `.weight` / `.bias`). -/
def ParamKey.render : ParamKey → String
  | .hiddenWeight i => "hidden_layers." ++ toString i ++ ".weight"
  | .hiddenBias i => "hidden_layers." ++ toString i ++ ".bias"
  | .outputWeight => "output.weight"
  | .outputBias => "output.bias"

/-- A state dict: an ordered mapping from parameter name to tensor value. -/
abbrev StateDict := List (ParamKey × Tensor)

/-- Mapping lookup (Python `dict` indexing) on a state dict. -/
def sdFind (k : ParamKey) : StateDict → Option Tensor
  | [] => none
  | p :: t => if p.1 = k then some p.2 else sdFind k t

/-- One `nn.Linear(in_features, out_features)` module: a weight matrix of
`out_features` rows of `in_features` entries and a bias of length
`out_features`. -/
structure Linear where
  in_features : Nat
  out_features : Nat
  weight : List (List ℚ)
  bias : List ℚ
  deriving DecidableEq

/-- An all-zero vector of length `n`. -/
def zerosVec (n : Nat) : List ℚ := List.replicate n 0

/-- An all-zero `r × c` matrix. -/
def zerosMat (r c : Nat) : List (List ℚ) := List.replicate r (zerosVec c)

/-- A freshly constructed `nn.Linear(nIn, nOut)`.  The library initialises
the parameters randomly; the embedding uses zeros of the documented shape
(`nOut × nIn` weight, `nOut` bias) — every use below overwrites these
initial values via `load_state_dict`, so only the shape matters. -/
def mkLinear (nIn nOut : Nat) : Linear :=
  { in_features := nIn, out_features := nOut
    weight := zerosMat nOut nIn, bias := zerosVec nOut }

/-- Modelled from the spec: the `fc_model.Network` module (not among the
source files; its printed representation in the Part 6 notebook shows a
`ModuleList` of hidden `Linear` layers, an `output` `Linear` layer and a
`Dropout(p=0.5)`). -/
structure Network where
  hidden_layers : List Linear
  output : Linear
  dropout_p : ℚ
  deriving DecidableEq

/-- The chain of hidden `Linear` layers built from an input width and the
list of hidden widths: `Linear(nIn, w0), Linear(w0, w1), …`. -/
def chainLayers : Nat → List Nat → List Linear
  | _, [] => []
  | nIn, w :: ws => mkLinear nIn w :: chainLayers w ws

/-- Modelled from the spec: the `fc_model.Network(input_size, output_size,
hidden_layers)` constructor (not among the source files).  It builds one
hidden `Linear` per hidden width, wired consecutively from `input_size`,
an output `Linear` from the last hidden width to `output_size`, and a
dropout module with the default probability 0.5 (the probability used by
every construction in the notebook).  The Python constructor indexes
`hidden_layers[0]` and `hidden_layers[-1]`, so the width list is taken
here as a first width plus the remaining widths. -/
def Network.build (input_size output_size h0 : Nat) (hs : List Nat) : Network :=
  { hidden_layers := chainLayers input_size (h0 :: hs)
    output := mkLinear (hs.getLastD h0) output_size
    dropout_p := 1 / 2 }

/-- The input width a network expects: the `in_features` of its first
hidden layer. -/
def Network.input_size (net : Network) : Nat :=
  (net.hidden_layers.headD (mkLinear 0 0)).in_features

/-- The number of class scores a network produces. -/
def Network.output_size (net : Network) : Nat := net.output.out_features

/-- The ordered hidden-layer widths (`each.out_features for each in
model.hidden_layers`, as the checkpoint cell computes them). -/
def Network.hiddenWidths (net : Network) : List Nat :=
  net.hidden_layers.map Linear.out_features

/-- The state-dict entries contributed by the hidden layers starting at
index `i`: one weight and one bias entry per layer, keyed by the layer's
index inside `hidden_layers`. -/
def hiddenEntries : Nat → List Linear → StateDict
  | _, [] => []
  | i, l :: ls =>
    (.hiddenWeight i, .mat l.weight) :: (.hiddenBias i, .vec l.bias) ::
      hiddenEntries (i + 1) ls

/-- `model.state_dict()`: the mapping from parameter name to current value,
with one weight and one bias entry per hidden layer followed by the output
layer's weight and bias — exactly the keys the Part 6 notebook prints. -/
def Network.state_dict (net : Network) : StateDict :=
  hiddenEntries 0 net.hidden_layers ++
    [(.outputWeight, .mat net.output.weight), (.outputBias, .vec net.output.bias)]

/-- A `Linear` whose stored tensors have the declared shapes. -/
def Linear.wf (l : Linear) : Bool :=
  l.weight.length == l.out_features &&
    l.weight.all (fun row => row.length == l.in_features) &&
    l.bias.length == l.out_features

/-- The hidden layers are well-formed and wired consecutively starting from
input width `nIn`. -/
def layersWf : Nat → List Linear → Bool
  | _, [] => true
  | nIn, l :: ls => l.in_features == nIn && l.wf && layersWf l.out_features ls

/-- The width coming out of a chain of layers fed with width `nIn`. -/
def endWidth : Nat → List Linear → Nat
  | nIn, [] => nIn
  | _, l :: ls => endWidth l.out_features ls

/-- A well-formed network: at least one hidden layer (the constructor
indexes `hidden_layers[0]`), consecutively wired well-formed hidden
layers, and a well-formed output layer fed by the last hidden width. -/
def Network.wf (net : Network) : Bool :=
  !net.hidden_layers.isEmpty &&
    layersWf net.input_size net.hidden_layers &&
    net.output.in_features == endWidth net.input_size net.hidden_layers &&
    net.output.wf

/-- Parameter copying performed by a successful `load_state_dict`: each
hidden layer takes the weight and bias recorded for its index (keeping its
own value for a key the source dict lacks, which cannot happen on the
success path). -/
def loadLayers (sd : StateDict) : Nat → List Linear → List Linear
  | _, [] => []
  | i, l :: ls =>
    { l with
      weight := match sdFind (.hiddenWeight i) sd with
        | some (.mat m) => m
        | _ => l.weight
      bias := match sdFind (.hiddenBias i) sd with
        | some (.vec v) => v
        | _ => l.bias } :: loadLayers sd (i + 1) ls

/-- The network with every parameter replaced by the value the state dict
records for its key. -/
def Network.loadParams (net : Network) (sd : StateDict) : Network :=
  { net with
    hidden_layers := loadLayers sd 0 net.hidden_layers
    output := { net.output with
      weight := match sdFind .outputWeight sd with
        | some (.mat m) => m
        | _ => net.output.weight
      bias := match sdFind .outputBias sd with
        | some (.vec v) => v
        | _ => net.output.bias } }

/-- One entry of the error report raised by the library's strict
`load_state_dict`: a per-tensor size mismatch ("copying a param with shape
`saved` from checkpoint, the shape in current model is `current`"), or the
collected missing / unexpected keys. -/
inductive LoadMsg where
  | sizeMismatch (key : ParamKey) (saved current : List Nat)
  | missingKeys (keys : List ParamKey)
  | unexpectedKeys (keys : List ParamKey)
  deriving DecidableEq

/-- Keys of the model's own state dict absent from the loaded dict. -/
def missingOf (own sd : StateDict) : List ParamKey :=
  (own.map Prod.fst).filter (fun k => (sdFind k sd).isNone)

/-- Keys of the loaded dict that the model does not have. -/
def unexpectedOf (own sd : StateDict) : List ParamKey :=
  (sd.map Prod.fst).filter (fun k => (sdFind k own).isNone)

/-- The report produced for one of the model's own parameters: a size
mismatch when the loaded dict stores a different shape under the same key,
nothing otherwise. -/
def mismatchAt (sd : StateDict) (p : ParamKey × Tensor) : Option LoadMsg :=
  match sdFind p.1 sd with
  | some t => if t.shape = p.2.shape then none
              else some (.sizeMismatch p.1 t.shape p.2.shape)
  | none => none

/-- The per-tensor size-mismatch reports, in the model's state-dict order
(the order the notebook's error trace shows). -/
def mismatchesOf (own sd : StateDict) : List LoadMsg :=
  own.filterMap (mismatchAt sd)

/-- The external library's `model.load_state_dict(sd)` with the default
`strict=True`: collect missing keys, unexpected keys and per-tensor size
mismatches; raise a `RuntimeError` carrying all of them if any exist
(missing first, then unexpected, then the size mismatches, as the library
assembles them), otherwise copy every parameter and report that all keys
matched (the `.ok` result). -/
def load_state_dict (net : Network) (sd : StateDict) : Except (List LoadMsg) Network :=
  let own := net.state_dict
  let msgs : List LoadMsg :=
    (if missingOf own sd = [] then [] else [LoadMsg.missingKeys (missingOf own sd)]) ++
    (if unexpectedOf own sd = [] then [] else [LoadMsg.unexpectedKeys (unexpectedOf own sd)]) ++
    mismatchesOf own sd
  if msgs = [] then .ok (net.loadParams sd) else .error msgs

/-- A value stored in a serialized checkpoint mapping: an integer, a list
of integers, or a state dict. -/
inductive PVal where
  | nat (n : Nat)
  | natList (l : List Nat)
  | dict (sd : StateDict)
  deriving DecidableEq

/-- A serialized checkpoint file: an ordered string-keyed mapping. -/
abbrev Checkpoint := List (String × PVal)

/-- Mapping lookup (Python `dict` indexing) on a checkpoint. -/
def cpFind (k : String) : Checkpoint → Option PVal
  | [] => none
  | p :: t => if p.1 = k then some p.2 else cpFind k t

/-- The `checkpoint` dictionary the Part 6 notebook builds and saves:
`{'input_size': …, 'output_size': …, 'hidden_layers': [each.out_features
for each in model.hidden_layers], 'state_dict': model.state_dict()}`.
The notebook writes the literals 784 and 10, which are the in-scope
model's input and output sizes; they are taken from the model here so the
dictionary can be formed for any model. -/
def checkpoint_of (net : Network) : Checkpoint :=
  [("input_size", .nat net.input_size),
   ("output_size", .nat net.output_size),
   ("hidden_layers", .natList net.hiddenWidths),
   ("state_dict", .dict net.state_dict)]

/-- How a `load_checkpoint` call can fail: a Python `KeyError` on a missing
mapping key, a `TypeError` when a stored value has the wrong type for the
`Network` constructor, an `IndexError` when the constructor indexes an
empty `hidden_layers` list, or the `RuntimeError` raised by a failing
`load_state_dict`. -/
inductive LoadError where
  | keyError (key : String)
  | typeError (key : String)
  | indexError
  | stateDictError (msgs : List LoadMsg)
  deriving DecidableEq

/-- The notebook's `load_checkpoint(filepath)`: read the checkpoint
mapping, look up `input_size`, `output_size` and `hidden_layers` (the
three constructor arguments, evaluated left to right, so the first missing
one raises its `KeyError`), construct `fc_model.Network` from them, then
look up `state_dict` and load it into the fresh model. -/
def load_checkpoint (cp : Checkpoint) : Except LoadError Network :=
  match cpFind "input_size" cp with
  | none => .error (.keyError "input_size")
  | some vIn =>
    match cpFind "output_size" cp with
    | none => .error (.keyError "output_size")
    | some vOut =>
      match cpFind "hidden_layers" cp with
      | none => .error (.keyError "hidden_layers")
      | some vH =>
        match vIn, vOut, vH with
        | .nat nIn, .nat nOut, .natList h =>
          match h with
          | [] => .error .indexError
          | h0 :: hs =>
            let model := Network.build nIn nOut h0 hs
            match cpFind "state_dict" cp with
            | none => .error (.keyError "state_dict")
            | some (.dict sd) =>
              match load_state_dict model sd with
              | .ok m => .ok m
              | .error msgs => .error (.stateDictError msgs)
            | some _ => .error (.typeError "state_dict")
        | _, _, _ => .error (.typeError "constructor arguments")

/-- The list of keys of a state dict, in order. -/
def keysOf (sd : StateDict) : List ParamKey := sd.map Prod.fst

/-- The keys together with the shapes of the stored tensors, in order. -/
def shapeList (sd : StateDict) : List (ParamKey × List Nat) :=
  sd.map (fun p => (p.1, p.2.shape))

/-- The expected key sequence of a model with `n` hidden layers, starting
the hidden indices at `i`. -/
def hiddenKeyList : Nat → Nat → List ParamKey
  | _, 0 => []
  | i, n + 1 => .hiddenWeight i :: .hiddenBias i :: hiddenKeyList (i + 1) n

/-- A key names an incompatible tensor: both dicts store it, with
different shapes. -/
def Incompat (own sd : StateDict) (k : ParamKey) : Prop :=
  ∃ t u, sdFind k own = some t ∧ sdFind k sd = some u ∧ u.shape ≠ t.shape

/-- A layer with its parameter tensors replaced by another layer's. -/
def copyParams (a b : Linear) : Linear :=
  { a with weight := b.weight, bias := b.bias }

/-- An event of the Part 3 training loop: the per-batch calls
`optimizer.zero_grad()`, `model.forward(images)`, `criterion(output,
labels)`, `loss.backward()`, `optimizer.step()`, and the periodic
`print("Epoch: {}/{}…  Loss: {:.4f}")` with the value
`running_loss / print_every`. -/
inductive Ev where
  | zeroGrad
  | forwardPass
  | lossCalc
  | backward
  | stepOpt
  | lossPrint (epoch epochs : Nat) (val : ℚ)
  deriving DecidableEq

/-- The five computation events the loop performs for every batch, in the
order the cell performs them. -/
def batchEvs : List Ev :=
  [.zeroGrad, .forwardPass, .lossCalc, .backward, .stepOpt]

/-- Whether an event is a loss printout. -/
def isPrint : Ev → Bool
  | .lossPrint _ _ _ => true
  | _ => false

/-- Whether an event is a loss printout of the epoch displayed as `k`. -/
def isPrintOf (k : Nat) : Ev → Bool
  | .lossPrint e _ _ => e == k
  | _ => false

/-- The inner `for images, labels in iter(trainloader)` loop of the Part 3
training cell, processing `k` remaining batches.  `L n` abstracts the loss
the external library computes at global step `n` (the first batch ever
processed is step 1); `P` is `print_every`, `eDisp`/`eTot` the `e+1` and
`epochs` values of the printout, `s` the global `steps` counter and `r`
the current `running_loss`.  Each batch increments `steps`, performs the
five computation events, adds its loss to `running_loss`, and when `steps`
is a multiple of `print_every` prints `running_loss / print_every` and
resets `running_loss` to zero.  Returns the final `steps`, the final
`running_loss` and the event trace. -/
def innerLoop (L : Nat → ℚ) (P eDisp eTot : Nat) :
    Nat → Nat → ℚ → Nat × ℚ × List Ev
  | 0, s, r => (s, r, [])
  | k + 1, s, r =>
    if (s + 1) % P = 0 then
      let out := innerLoop L P eDisp eTot k (s + 1) 0
      (out.1, out.2.1,
        batchEvs ++ Ev.lossPrint eDisp eTot ((r + L (s + 1)) / (P : ℚ)) :: out.2.2)
    else
      let out := innerLoop L P eDisp eTot k (s + 1) (r + L (s + 1))
      (out.1, out.2.1, batchEvs ++ out.2.2)

/-- The outer `for e in range(epochs)` loop of the Part 3 training cell.
At the start of every epoch `running_loss` is reset to 0 while the global
`steps` counter carries over.  `eDisp` is the display index `e+1` of the
next epoch and the first component of the result is the final `steps`. -/
def epochsLoop (L : Nat → ℚ) (P eTot N : Nat) :
    Nat → Nat → Nat → Nat × List Ev
  | _, 0, s => (s, [])
  | eDisp, m + 1, s =>
    let inner := innerLoop L P eDisp eTot N s 0
    let rest := epochsLoop L P eTot N (eDisp + 1) m inner.1
    (rest.1, inner.2.2 ++ rest.2)

/-- The full Part 3 training loop: `epochs` epochs of `N` batches each,
printing every `print_every` steps, with the per-step losses given by the
oracle `L`. -/
def trainLoop (L : Nat → ℚ) (epochs N P : Nat) : List Ev :=
  (epochsLoop L P epochs N 1 epochs 0).2

/-- The sum of the batch losses of global steps `s+1, …, s+d`. -/
def winSum (L : Nat → ℚ) (s d : Nat) : ℚ :=
  ((List.range d).map (fun j => L (s + j + 1))).sum

/-- An event of the `fc_model.train` loop called by the Part 6 notebook:
a training batch with its loss, or an evaluation pass over the held-out
split computing a test loss and an accuracy. -/
inductive TEv where
  | batchStep (loss : ℚ)
  | evalPass (atStep : Nat) (testLoss accuracy : ℚ)
  deriving DecidableEq

/-- Modelled from the spec: the inner batch loop of `fc_model.train` (the
function lives in `fc_model.py`, which is not among the source files; the
spec describes "a training/evaluation loop invoking a library-provided
automatic differentiation pass and optimizer step per batch, tracking
running loss and accuracy on a validation split", and the notebook's
printed output shows one `Training Loss / Test Loss / Test Accuracy` line
every `print_every` batches).  `L n` is the training loss of global step
`n`; `V n` is the `(test_loss, accuracy)` pair the `validation` helper
computes on the held-out loader at step `n`; every `print_every`-th step
triggers that evaluation pass. -/
def fcInner (L : Nat → ℚ) (V : Nat → ℚ × ℚ) (P : Nat) : Nat → Nat → List TEv
  | 0, _ => []
  | k + 1, s =>
    if (s + 1) % P = 0 then
      TEv.batchStep (L (s + 1)) ::
        TEv.evalPass (s + 1) (V (s + 1)).1 (V (s + 1)).2 :: fcInner L V P k (s + 1)
    else
      TEv.batchStep (L (s + 1)) :: fcInner L V P k (s + 1)

/-- Modelled from the spec: the epoch loop of `fc_model.train`; the step
counter is global across epochs. -/
def fcEpochs (L : Nat → ℚ) (V : Nat → ℚ × ℚ) (P N : Nat) : Nat → Nat → List TEv
  | 0, _ => []
  | m + 1, s => fcInner L V P N s ++ fcEpochs L V P N m (s + N)

/-- Modelled from the spec: `fc_model.train(model, trainloader, testloader,
criterion, optimizer, epochs)` — `epochs` epochs of `N` batches with an
evaluation pass on the held-out split every `print_every` steps. -/
def fcTrain (L : Nat → ℚ) (V : Nat → ℚ × ℚ) (epochs N P : Nat) : List TEv :=
  fcEpochs L V P N epochs 0

/-- Whether a `fc_model.train` event is a training batch. -/
def TEv.isBatch : TEv → Bool
  | .batchStep _ => true
  | _ => false

/-- The global steps at which a trace performed an evaluation pass. -/
def evalSteps (t : List TEv) : List Nat :=
  t.filterMap (fun ev => match ev with
    | .evalPass s _ _ => some s
    | _ => none)

/-- The global steps among `s+1, …, s+k` that are multiples of `P` — the
independently stated schedule of an every-`print_every`-steps action. -/
def periodicIn (P s k : Nat) : List Nat :=
  (List.range k).filterMap
    (fun j => if (s + j + 1) % P = 0 then some (s + j + 1) else none)

/-- The rectified linear unit used between the layers. -/
def relu (x : ℚ) : ℚ := max x 0

/-- Dot product of two vectors (trailing entries of the longer one are
ignored, matching the shapes in well-formed use). -/
def dot (v w : List ℚ) : ℚ := (List.zipWith (· * ·) v w).sum

/-- Application of a `Linear` module to an input vector: one output entry
`row · x + b` per weight row / bias entry pair. -/
def Linear.apply (l : Linear) (x : List ℚ) : List ℚ :=
  List.zipWith (fun row b => dot row x + b) l.weight l.bias

/-- Modelled from the spec: `Network.forward` (in the missing
`fc_model.py`); per the spec, each hidden layer is a linear transform
followed by the non-linearity and dropout, and the final linear layer
produces the class scores.  Dropout randomly zeroes entries at training
time and is the identity in evaluation mode; it is abstracted by the
function `drop`. -/
def Network.forward (drop : List ℚ → List ℚ) (net : Network) (x : List ℚ) : List ℚ :=
  net.output.apply
    (net.hidden_layers.foldl (fun a l => drop ((l.apply a).map relu)) x)

/-- The `nn.Sequential` classifier the Part 3 notebook builds: `fc1`,
`relu1`, `fc2`, `relu2`, `logits`. -/
structure SeqModel where
  fc1 : Linear
  fc2 : Linear
  logits : Linear
  deriving DecidableEq

/-- Forward pass of the Part 3 sequential model: two linear+ReLU stages
followed by the final linear layer producing the logits. -/
def SeqModel.forward (m : SeqModel) (x : List ℚ) : List ℚ :=
  m.logits.apply ((m.fc2.apply ((m.fc1.apply x).map relu)).map relu)

/-- The first `n` entries of a list, padded with zeros when the list is
shorter (the library's `resize_` keeps the leading storage and leaves any
grown storage uninitialised; the unspecified new values are modelled as
zeros). -/
def takePad (n : Nat) (d : List ℚ) : List ℚ :=
  d.take n ++ List.replicate (n - d.length) 0

/-- Split a flat list into `r` consecutive rows of `c` entries. -/
def chunks (c : Nat) : Nat → List ℚ → List (List ℚ)
  | 0, _ => []
  | r + 1, d => d.take c :: chunks c r (d.drop c)

/-- `images.resize_(r, c)` applied to a batch of images: the batch's
row-major storage is truncated or grown to `r*c` entries and viewed as `r`
rows of `c`.  `resize_` never raises on an element-count change. -/
def resizeBatch (r c : Nat) (images : List (List ℚ)) : List (List ℚ) :=
  chunks c r (takePad (r * c) images.flatten)

/-- The batch-size agreement check `nn.CrossEntropyLoss` performs between
its input and target ("Expected input batch_size to match target
batch_size"); the numeric loss itself is computed by the external library
and does not matter to the claims about this check. -/
def criterionSizeCheck (outBatch targetBatch : Nat) : Except String Unit :=
  if outBatch = targetBatch then .ok ()
  else .error "Expected input batch_size to match target batch_size"

/-- The single demonstration training step of the Part 3 notebook:
`images.resize_(64, 784)`, a forward pass, then the loss computation
against the batch's labels (whose count the criterion checks against the
output's row count).  The subsequent backward pass and optimizer step
never fail and are omitted. -/
def demoStep (m : SeqModel) (images : List (List ℚ)) (labels : List Nat) :
    Except String Unit :=
  criterionSizeCheck ((resizeBatch 64 784 images).map m.forward).length labels.length

/-- One batch of the full Part 3 training loop:
`images.resize_(images.size()[0], 784)` followed by the same forward and
loss computation. -/
def loopStep (m : SeqModel) (images : List (List ℚ)) (labels : List Nat) :
    Except String Unit :=
  criterionSizeCheck
    ((resizeBatch images.length 784 images).map m.forward).length labels.length

/-- The Part 3 sequential model's layer dimensions (`input_size = 784`,
`hidden_sizes = [128, 64]`, `output_size = 10`), with the random initial
parameters replaced by zeros (the claims about the step's success or
failure do not depend on the parameter values). -/
def seqModel784 : SeqModel :=
  { fc1 := mkLinear 784 128, fc2 := mkLinear 128 64, logits := mkLinear 64 10 }

/-! ### Lookup lemmas -/

theorem sdFind_append (k : ParamKey) (a b : StateDict) :
    sdFind k (a ++ b) = (sdFind k a).or (sdFind k b) := by
  induction a with
  | nil => simp [sdFind]
  | cons p t ih =>
    by_cases h : p.1 = k <;> simp [sdFind, h, ih]

theorem sdFind_eq_none_iff (k : ParamKey) (sd : StateDict) :
    sdFind k sd = none ↔ k ∉ keysOf sd := by
  induction sd with
  | nil => simp [sdFind, keysOf]
  | cons p t ih =>
    simp only [keysOf, List.map_cons, List.mem_cons]
    by_cases h : p.1 = k
    · simp [sdFind, h]
    · have h' : ¬ k = p.1 := fun hh => h hh.symm
      simp [sdFind, h, h', keysOf, ih]

theorem sdFind_some_mem {k : ParamKey} {sd : StateDict} {v : Tensor}
    (h : sdFind k sd = some v) : (k, v) ∈ sd := by
  induction sd with
  | nil => simp [sdFind] at h
  | cons p t ih =>
    obtain ⟨pk, pv⟩ := p
    by_cases hk : pk = k
    · subst hk
      simp [sdFind] at h
      subst h
      exact List.mem_cons_self _ _
    · simp [sdFind, hk] at h
      exact List.mem_cons_of_mem _ (ih h)

theorem sdFind_of_mem_nodup {k : ParamKey} {sd : StateDict} {v : Tensor}
    (hnd : (keysOf sd).Nodup) (hm : (k, v) ∈ sd) : sdFind k sd = some v := by
  induction sd with
  | nil => simp at hm
  | cons p t ih =>
    obtain ⟨pk, pv⟩ := p
    rw [keysOf, List.map_cons, List.nodup_cons] at hnd
    rcases List.mem_cons.1 hm with h | h
    · injection h with h1 h2
      subst h1
      subst h2
      simp [sdFind]
    · have hk : pk ≠ k := by
        intro hkk
        subst hkk
        exact hnd.1 (List.mem_map.2 ⟨(pk, v), h, rfl⟩)
      simp [sdFind, hk]
      exact ih hnd.2 h

theorem keysOf_shapeList (sd : StateDict) :
    (shapeList sd).map Prod.fst = keysOf sd := by
  simp [shapeList, keysOf]

theorem sdFind_shape_congr {own sd : StateDict}
    (h : shapeList own = shapeList sd) (k : ParamKey) :
    (sdFind k own).map Tensor.shape = (sdFind k sd).map Tensor.shape := by
  induction own generalizing sd with
  | nil =>
    cases sd with
    | nil => rfl
    | cons q t => simp [shapeList] at h
  | cons p t ih =>
    cases sd with
    | nil => simp [shapeList] at h
    | cons q u =>
      simp only [shapeList, List.map_cons, List.cons_inj_right, List.cons_eq_cons,
        Prod.mk.injEq] at h
      obtain ⟨⟨hk, hs⟩, hrest⟩ := h
      by_cases hq : p.1 = k
      · simp [sdFind, hq, hq ▸ hk, hs]
      · have : q.1 ≠ k := by rw [← hk]; exact hq
        simp [sdFind, hq, this]
        exact ih hrest

/-! ### Structure of the built network and its state dict -/

theorem keysOf_append (a b : StateDict) : keysOf (a ++ b) = keysOf a ++ keysOf b := by
  simp [keysOf]

theorem chainLayers_length (nIn : Nat) (ws : List Nat) :
    (chainLayers nIn ws).length = ws.length := by
  induction ws generalizing nIn with
  | nil => rfl
  | cons w ws ih => simp [chainLayers, ih]

theorem chainLayers_widths (nIn : Nat) (ws : List Nat) :
    (chainLayers nIn ws).map Linear.out_features = ws := by
  induction ws generalizing nIn with
  | nil => rfl
  | cons w ws ih => simp [chainLayers, mkLinear, ih]

theorem keysOf_hiddenEntries (i : Nat) (ls : List Linear) :
    keysOf (hiddenEntries i ls) = hiddenKeyList i ls.length := by
  induction ls generalizing i with
  | nil => rfl
  | cons l ls ih =>
    show ParamKey.hiddenWeight i :: ParamKey.hiddenBias i ::
        keysOf (hiddenEntries (i + 1) ls) =
      ParamKey.hiddenWeight i :: ParamKey.hiddenBias i ::
        hiddenKeyList (i + 1) ls.length
    rw [ih]

theorem keysOf_state_dict (net : Network) :
    keysOf net.state_dict =
      hiddenKeyList 0 net.hidden_layers.length ++
        [ParamKey.outputWeight, ParamKey.outputBias] := by
  rw [Network.state_dict, keysOf_append, keysOf_hiddenEntries]
  rfl

theorem mem_hiddenKeyList {k : ParamKey} : ∀ {n i : Nat},
    k ∈ hiddenKeyList i n ↔
      ∃ j, i ≤ j ∧ j < i + n ∧ (k = .hiddenWeight j ∨ k = .hiddenBias j) := by
  intro n
  induction n with
  | zero =>
    intro i
    simp only [hiddenKeyList, List.not_mem_nil, false_iff]
    rintro ⟨j, h1, h2, -⟩
    omega
  | succ n ih =>
    intro i
    rw [hiddenKeyList]
    simp only [List.mem_cons, ih]
    constructor
    · rintro (rfl | rfl | ⟨j, h1, h2, h3⟩)
      · exact ⟨i, le_refl i, by omega, Or.inl rfl⟩
      · exact ⟨i, le_refl i, by omega, Or.inr rfl⟩
      · exact ⟨j, by omega, by omega, h3⟩
    · rintro ⟨j, h1, h2, h3⟩
      rcases Nat.eq_or_lt_of_le h1 with rfl | hlt
      · rcases h3 with rfl | rfl
        · exact Or.inl rfl
        · exact Or.inr (Or.inl rfl)
      · exact Or.inr (Or.inr ⟨j, by omega, by omega, h3⟩)

theorem hiddenKeys_out_nodup : ∀ (n i : Nat),
    (hiddenKeyList i n ++ [ParamKey.outputWeight, ParamKey.outputBias]).Nodup := by
  intro n
  induction n with
  | zero =>
    intro i
    simp [hiddenKeyList]
  | succ n ih =>
    intro i
    rw [hiddenKeyList, List.cons_append, List.cons_append, List.nodup_cons,
      List.nodup_cons]
    refine ⟨?_, ?_, ih (i + 1)⟩
    · simp only [List.mem_cons, List.mem_append, mem_hiddenKeyList]
      rintro (h | ⟨j, h1, h2, h3 | h3⟩ | h | h) <;> first
        | exact absurd h (by simp)
        | (injection h3 with hj; omega)
        | cases h3
    · simp only [List.mem_append, mem_hiddenKeyList]
      rintro (⟨j, h1, h2, h3 | h3⟩ | h)
      · cases h3
      · injection h3 with hj
        omega
      · simp at h

/-! ### Shapes of well-formed parameters -/

theorem shape_mat_wf {l : Linear} (h : l.wf = true) :
    Tensor.shape (.mat l.weight) =
      Tensor.shape (.mat (zerosMat l.out_features l.in_features)) := by
  rw [Linear.wf, Bool.and_eq_true, Bool.and_eq_true] at h
  obtain ⟨⟨hw, hall⟩, -⟩ := h
  rw [beq_iff_eq] at hw
  rw [List.all_eq_true] at hall
  cases hweight : l.weight with
  | nil =>
    rw [hweight] at hw
    simp [Tensor.shape, zerosMat, zerosVec, ← hw]
  | cons r rest =>
    rw [hweight] at hw
    have hr : r.length = l.in_features := by
      have := hall r (by rw [hweight]; exact List.mem_cons_self _ _)
      exact beq_iff_eq.1 this
    simp [Tensor.shape, zerosMat, zerosVec, ← hw, hr, List.replicate_succ]

theorem shape_vec_wf {l : Linear} (h : l.wf = true) :
    Tensor.shape (.vec l.bias) = [l.out_features] := by
  rw [Linear.wf, Bool.and_eq_true, Bool.and_eq_true] at h
  obtain ⟨-, hb⟩ := h
  rw [beq_iff_eq] at hb
  simp [Tensor.shape, hb]

theorem shapeList_hiddenEntries_chain : ∀ (ls : List Linear) (i nIn : Nat),
    layersWf nIn ls = true →
    shapeList (hiddenEntries i (chainLayers nIn (ls.map Linear.out_features))) =
      shapeList (hiddenEntries i ls) := by
  intro ls
  induction ls with
  | nil => intro i nIn _; rfl
  | cons l ls ih =>
    intro i nIn h
    rw [layersWf, Bool.and_eq_true, Bool.and_eq_true] at h
    obtain ⟨⟨hin, hwf⟩, hrest⟩ := h
    rw [beq_iff_eq] at hin
    have e1 : Tensor.shape (.mat (zerosMat l.out_features nIn)) =
        Tensor.shape (.mat l.weight) := by
      rw [← hin]
      exact (shape_mat_wf hwf).symm
    have e2 : Tensor.shape (.vec (zerosVec l.out_features)) =
        Tensor.shape (.vec l.bias) := by
      rw [shape_vec_wf hwf]
      simp [Tensor.shape, zerosVec]
    simp only [List.map_cons, chainLayers, hiddenEntries, shapeList, List.map_cons,
      mkLinear]
    rw [e1, e2]
    have := ih (i + 1) l.out_features hrest
    simp only [shapeList] at this
    rw [this]

/-! ### Success of shape-compatible loads -/

theorem missingOf_eq_nil {own sd : StateDict} (h : keysOf own = keysOf sd) :
    missingOf own sd = [] := by
  rw [missingOf, List.filter_eq_nil_iff]
  intro k hk
  have hmem : k ∈ keysOf sd := by
    rw [← h]
    exact hk
  simp only [Option.isNone_iff_eq_none, sdFind_eq_none_iff]
  simp [hmem]

theorem unexpectedOf_eq_nil {own sd : StateDict} (h : keysOf own = keysOf sd) :
    unexpectedOf own sd = [] := by
  rw [unexpectedOf, List.filter_eq_nil_iff]
  intro k hk
  have hmem : k ∈ keysOf own := by
    rw [h]
    exact hk
  simp only [Option.isNone_iff_eq_none, sdFind_eq_none_iff]
  simp [hmem]

theorem mismatchAt_eq_none {sd : StateDict} {p : ParamKey × Tensor}
    (h : sdFind p.1 sd = none) : mismatchAt sd p = none := by
  rw [mismatchAt, h]

theorem mismatchAt_eq_some {sd : StateDict} {p : ParamKey × Tensor} {t : Tensor}
    (h : sdFind p.1 sd = some t) :
    mismatchAt sd p =
      if t.shape = p.2.shape then none
      else some (.sizeMismatch p.1 t.shape p.2.shape) := by
  rw [mismatchAt, h]

theorem mismatchesOf_eq_nil {own sd : StateDict} (hsh : shapeList own = shapeList sd)
    (hnd : (keysOf own).Nodup) : mismatchesOf own sd = [] := by
  rw [mismatchesOf, List.filterMap_eq_nil_iff]
  rintro ⟨pk, pv⟩ hp
  have hown : sdFind pk own = some pv := sdFind_of_mem_nodup hnd hp
  have hcong := sdFind_shape_congr hsh pk
  rw [hown] at hcong
  cases hsd : sdFind pk sd with
  | none => exact mismatchAt_eq_none hsd
  | some t =>
    rw [hsd] at hcong
    injection hcong with hshape
    rw [mismatchAt_eq_some hsd]
    exact if_pos hshape.symm

theorem load_state_dict_ok {net : Network} {sd : StateDict}
    (hsh : shapeList net.state_dict = shapeList sd)
    (hnd : (keysOf net.state_dict).Nodup) :
    load_state_dict net sd = .ok (net.loadParams sd) := by
  have hk : keysOf net.state_dict = keysOf sd := by
    rw [← keysOf_shapeList, ← keysOf_shapeList, hsh]
  rw [load_state_dict]
  simp [missingOf_eq_nil hk, unexpectedOf_eq_nil hk, mismatchesOf_eq_nil hsh hnd]

/-! ### Reconstruction performed by a successful load -/

theorem shapeList_append (a b : StateDict) :
    shapeList (a ++ b) = shapeList a ++ shapeList b := by
  simp [shapeList]

theorem sdFind_hidden_in_outs (j : Nat) (w b : Tensor) :
    sdFind (.hiddenWeight j) [(ParamKey.outputWeight, w), (ParamKey.outputBias, b)] =
        none ∧
      sdFind (.hiddenBias j) [(ParamKey.outputWeight, w), (ParamKey.outputBias, b)] =
        none := by
  constructor <;> simp [sdFind]

theorem sdFind_outputWeight_hidden (i : Nat) (ls : List Linear) :
    sdFind .outputWeight (hiddenEntries i ls) = none := by
  induction ls generalizing i with
  | nil => rfl
  | cons l ls ih => simp [hiddenEntries, sdFind, ih]

theorem sdFind_outputBias_hidden (i : Nat) (ls : List Linear) :
    sdFind .outputBias (hiddenEntries i ls) = none := by
  induction ls generalizing i with
  | nil => rfl
  | cons l ls ih => simp [hiddenEntries, sdFind, ih]

theorem sdFind_outputWeight_state_dict (net : Network) :
    sdFind .outputWeight net.state_dict = some (.mat net.output.weight) := by
  rw [Network.state_dict, sdFind_append, sdFind_outputWeight_hidden]
  simp [sdFind]

theorem sdFind_outputBias_state_dict (net : Network) :
    sdFind .outputBias net.state_dict = some (.vec net.output.bias) := by
  rw [Network.state_dict, sdFind_append, sdFind_outputBias_hidden]
  simp [sdFind]

theorem loadLayers_reconstruct : ∀ (ls1 ls2 : List Linear) (i : Nat)
    (pre rest : StateDict),
    ls1.length = ls2.length →
    (∀ j, i ≤ j → sdFind (.hiddenWeight j) pre = none ∧
      sdFind (.hiddenBias j) pre = none) →
    (∀ j, sdFind (.hiddenWeight j) rest = none ∧
      sdFind (.hiddenBias j) rest = none) →
    loadLayers (pre ++ hiddenEntries i ls2 ++ rest) i ls1 =
      List.zipWith copyParams ls1 ls2 := by
  intro ls1
  induction ls1 with
  | nil => intro ls2 i pre rest _ _ _; rfl
  | cons a ls1 ih =>
    intro ls2 i pre rest hlen hpre hrest
    cases ls2 with
    | nil => simp at hlen
    | cons b ls2 =>
      have hsplit : pre ++ hiddenEntries i (b :: ls2) ++ rest =
          (pre ++ [(ParamKey.hiddenWeight i, Tensor.mat b.weight),
            (ParamKey.hiddenBias i, Tensor.vec b.bias)]) ++
            hiddenEntries (i + 1) ls2 ++ rest := by
        simp [hiddenEntries]
      have hfw : sdFind (.hiddenWeight i) (pre ++ hiddenEntries i (b :: ls2) ++ rest) =
          some (.mat b.weight) := by
        rw [sdFind_append, sdFind_append, (hpre i (le_refl i)).1]
        simp [hiddenEntries, sdFind, Option.or]
      have hfb : sdFind (.hiddenBias i) (pre ++ hiddenEntries i (b :: ls2) ++ rest) =
          some (.vec b.bias) := by
        rw [sdFind_append, sdFind_append, (hpre i (le_refl i)).2]
        simp [hiddenEntries, sdFind, Option.or]
      have hpre2 : ∀ j, i + 1 ≤ j →
          sdFind (.hiddenWeight j)
              (pre ++ [(ParamKey.hiddenWeight i, Tensor.mat b.weight),
                (ParamKey.hiddenBias i, Tensor.vec b.bias)]) = none ∧
            sdFind (.hiddenBias j)
              (pre ++ [(ParamKey.hiddenWeight i, Tensor.mat b.weight),
                (ParamKey.hiddenBias i, Tensor.vec b.bias)]) = none := by
        intro j hj
        have hne : i ≠ j := by omega
        constructor
        · rw [sdFind_append, (hpre j (by omega)).1]
          simp [sdFind, Option.or, hne]
        · rw [sdFind_append, (hpre j (by omega)).2]
          simp [sdFind, Option.or, hne]
      rw [loadLayers, hfw, hfb]
      rw [hsplit, ih ls2 (i + 1) _ rest (by simpa using hlen) hpre2 hrest]
      rfl

theorem hiddenEntries_zipWith : ∀ (ls1 ls2 : List Linear) (i : Nat),
    ls1.length = ls2.length →
    hiddenEntries i (List.zipWith copyParams ls1 ls2) = hiddenEntries i ls2 := by
  intro ls1
  induction ls1 with
  | nil =>
    intro ls2 i hlen
    cases ls2 with
    | nil => rfl
    | cons b ls2 => simp at hlen
  | cons a ls1 ih =>
    intro ls2 i hlen
    cases ls2 with
    | nil => simp at hlen
    | cons b ls2 =>
      simp only [List.zipWith_cons_cons, hiddenEntries, copyParams]
      rw [ih ls2 (i + 1) (by simpa using hlen)]

theorem zipWith_copyParams_out : ∀ (ls1 ls2 : List Linear),
    ls1.length = ls2.length →
    (List.zipWith copyParams ls1 ls2).map Linear.out_features =
      ls1.map Linear.out_features := by
  intro ls1
  induction ls1 with
  | nil => intro ls2 _; rfl
  | cons a ls1 ih =>
    intro ls2 hlen
    cases ls2 with
    | nil => simp at hlen
    | cons b ls2 =>
      simp only [List.zipWith_cons_cons, List.map_cons, copyParams]
      rw [ih ls2 (by simpa using hlen)]

/-! ### Well-formedness unpacking -/

theorem wf_unpack {net : Network} (h : net.wf = true) :
    net.hidden_layers ≠ [] ∧ layersWf net.input_size net.hidden_layers = true ∧
      net.output.in_features = endWidth net.input_size net.hidden_layers ∧
      net.output.wf = true := by
  rw [Network.wf, Bool.and_eq_true, Bool.and_eq_true, Bool.and_eq_true] at h
  obtain ⟨⟨⟨h1, h2⟩, h3⟩, h4⟩ := h
  refine ⟨?_, h2, beq_iff_eq.1 h3, h4⟩
  intro hcontr
  rw [hcontr] at h1
  simp at h1

theorem endWidth_eq_getLastD : ∀ (ls : List Linear) (nIn : Nat),
    endWidth nIn ls = (ls.map Linear.out_features).getLastD nIn := by
  intro ls
  induction ls with
  | nil => intro nIn; rfl
  | cons l ls ih =>
    intro nIn
    rw [endWidth, List.map_cons, List.getLastD_cons, ih]

/-! ### The checkpoint round-trip (C1) -/

theorem load_checkpoint_checkpoint_of (net : Network) (w0 : Nat) (ws : List Nat)
    (hw : net.hiddenWidths = w0 :: ws) :
    load_checkpoint (checkpoint_of net) =
      (match load_state_dict (Network.build net.input_size net.output_size w0 ws)
          net.state_dict with
        | .ok m => Except.ok m
        | .error msgs => Except.error (LoadError.stateDictError msgs)) := by
  rw [checkpoint_of, hw]
  rfl

theorem shapeList_build_state_dict {net : Network} (h : net.wf = true)
    (w0 : Nat) (ws : List Nat) (hw : net.hiddenWidths = w0 :: ws) :
    shapeList (Network.build net.input_size net.output_size w0 ws).state_dict =
      shapeList net.state_dict := by
  obtain ⟨-, hlw, hoin, howf⟩ := wf_unpack h
  rw [Network.state_dict, Network.state_dict, shapeList_append, shapeList_append]
  have hhid : shapeList (hiddenEntries 0 (Network.build net.input_size
      net.output_size w0 ws).hidden_layers) =
      shapeList (hiddenEntries 0 net.hidden_layers) := by
    show shapeList (hiddenEntries 0 (chainLayers net.input_size (w0 :: ws))) = _
    rw [← hw, Network.hiddenWidths]
    exact shapeList_hiddenEntries_chain net.hidden_layers 0 net.input_size hlw
  rw [hhid]
  have hout : shapeList [(ParamKey.outputWeight,
        Tensor.mat (Network.build net.input_size net.output_size w0 ws).output.weight),
      (ParamKey.outputBias,
        Tensor.vec (Network.build net.input_size net.output_size w0 ws).output.bias)] =
      shapeList [(ParamKey.outputWeight, Tensor.mat net.output.weight),
        (ParamKey.outputBias, Tensor.vec net.output.bias)] := by
    have hlast : ws.getLastD w0 = net.output.in_features := by
      rw [hoin, endWidth_eq_getLastD]
      rw [Network.hiddenWidths] at hw
      rw [hw, List.getLastD_cons]
    show shapeList [(ParamKey.outputWeight,
        Tensor.mat (zerosMat net.output_size (ws.getLastD w0))),
      (ParamKey.outputBias, Tensor.vec (zerosVec net.output_size))] = _
    rw [hlast]
    simp only [shapeList, List.map_cons, List.map_nil]
    rw [show net.output_size = net.output.out_features from rfl,
      ← shape_mat_wf howf, shape_vec_wf howf]
    simp [Tensor.shape, zerosVec]
  rw [hout]

/-- C1: writing the checkpoint dictionary and reading it back with
`load_checkpoint` succeeds on every well-formed model and yields a model
with the same input size, the same output size, the same ordered
hidden-layer widths, and the same saved parameter values (equal state
dicts). -/
theorem checkpoint_roundtrip (net : Network) (h : net.wf = true) :
    ∃ net2, load_checkpoint (checkpoint_of net) = .ok net2 ∧
      net2.input_size = net.input_size ∧
      net2.output_size = net.output_size ∧
      net2.hiddenWidths = net.hiddenWidths ∧
      net2.state_dict = net.state_dict := by
  obtain ⟨hne, hlw, hoin, howf⟩ := wf_unpack h
  obtain ⟨l0, rest, hhl⟩ : ∃ l0 rest, net.hidden_layers = l0 :: rest := by
    cases hcase : net.hidden_layers with
    | nil => exact absurd hcase hne
    | cons x xs => exact ⟨x, xs, rfl⟩
  have hw : net.hiddenWidths = l0.out_features :: rest.map Linear.out_features := by
    rw [Network.hiddenWidths, hhl, List.map_cons]
  set w0 := l0.out_features
  set ws := rest.map Linear.out_features with hws
  set B := Network.build net.input_size net.output_size w0 ws with hB
  have hlenB : B.hidden_layers.length = net.hidden_layers.length := by
    rw [hB, Network.build]
    show (chainLayers net.input_size (w0 :: ws)).length = _
    rw [chainLayers_length, ← hw, Network.hiddenWidths, List.length_map]
  have hnd : (keysOf B.state_dict).Nodup := by
    rw [keysOf_state_dict]
    exact hiddenKeys_out_nodup _ 0
  have hsh : shapeList B.state_dict = shapeList net.state_dict :=
    shapeList_build_state_dict h w0 ws hw
  have hok : load_state_dict B net.state_dict = .ok (B.loadParams net.state_dict) :=
    load_state_dict_ok hsh hnd
  have hload : load_checkpoint (checkpoint_of net) =
      .ok (B.loadParams net.state_dict) := by
    rw [load_checkpoint_checkpoint_of net w0 ws hw, ← hB, hok]
  have hhidden : (B.loadParams net.state_dict).hidden_layers =
      List.zipWith copyParams B.hidden_layers net.hidden_layers := by
    show loadLayers net.state_dict 0 B.hidden_layers = _
    have hrw : net.state_dict = [] ++ hiddenEntries 0 net.hidden_layers ++
        [(ParamKey.outputWeight, Tensor.mat net.output.weight),
          (ParamKey.outputBias, Tensor.vec net.output.bias)] := by
      rw [Network.state_dict]
      simp
    rw [hrw]
    exact loadLayers_reconstruct B.hidden_layers net.hidden_layers 0 [] _
      hlenB (fun j _ => ⟨rfl, rfl⟩) (fun j => sdFind_hidden_in_outs j _ _)
  have houtw : (B.loadParams net.state_dict).output.weight = net.output.weight := by
    show (match sdFind .outputWeight net.state_dict with
      | some (.mat m) => m
      | _ => B.output.weight) = net.output.weight
    rw [sdFind_outputWeight_state_dict]
  have houtb : (B.loadParams net.state_dict).output.bias = net.output.bias := by
    show (match sdFind .outputBias net.state_dict with
      | some (.vec v) => v
      | _ => B.output.bias) = net.output.bias
    rw [sdFind_outputBias_state_dict]
  refine ⟨B.loadParams net.state_dict, hload, ?_, ?_, ?_, ?_⟩
  · rw [Network.input_size, hhidden]
    have : B.hidden_layers = mkLinear net.input_size w0 :: chainLayers w0 ws := rfl
    rw [this, hhl, List.zipWith_cons_cons]
    rfl
  · rfl
  · rw [Network.hiddenWidths, hhidden, zipWith_copyParams_out _ _ hlenB]
    have : B.hidden_layers.map Linear.out_features = w0 :: ws := by
      rw [hB, Network.build]
      exact chainLayers_widths _ _
    rw [this, ← hw]
  · rw [show (B.loadParams net.state_dict).state_dict =
        hiddenEntries 0 (B.loadParams net.state_dict).hidden_layers ++
          [(ParamKey.outputWeight,
              Tensor.mat (B.loadParams net.state_dict).output.weight),
            (ParamKey.outputBias,
              Tensor.vec (B.loadParams net.state_dict).output.bias)] from rfl]
    rw [hhidden, houtw, houtb, hiddenEntries_zipWith _ _ 0 hlenB]
    rfl

/-- Witness for C1 at a concrete model: a well-formed two-layer network
(input width 2, one hidden layer of width 1, one output class) round-trips
through its checkpoint. -/
theorem checkpoint_roundtrip_witness :
    (Network.build 2 1 1 []).wf = true ∧
      ∃ net2, load_checkpoint (checkpoint_of (Network.build 2 1 1 [])) = .ok net2 ∧
        net2.input_size = (Network.build 2 1 1 []).input_size ∧
        net2.output_size = (Network.build 2 1 1 []).output_size ∧
        net2.hiddenWidths = (Network.build 2 1 1 []).hiddenWidths ∧
        net2.state_dict = (Network.build 2 1 1 []).state_dict :=
  ⟨by decide, checkpoint_roundtrip (Network.build 2 1 1 []) (by decide)⟩

/-! ### Width mismatches on load (C2) -/

theorem load_state_dict_eq_of_keys {net : Network} {sd : StateDict}
    (hk : keysOf net.state_dict = keysOf sd) :
    load_state_dict net sd =
      (if mismatchesOf net.state_dict sd = [] then .ok (net.loadParams sd)
        else .error (mismatchesOf net.state_dict sd)) := by
  rw [load_state_dict]
  simp [missingOf_eq_nil hk, unexpectedOf_eq_nil hk]

theorem keysOf_build (inS outS a : Nat) (hs : List Nat) :
    keysOf (Network.build inS outS a hs).state_dict =
      hiddenKeyList 0 (hs.length + 1) ++
        [ParamKey.outputWeight, ParamKey.outputBias] := by
  have hlen : (Network.build inS outS a hs).hidden_layers.length = hs.length + 1 := by
    show (chainLayers inS (a :: hs)).length = hs.length + 1
    rw [chainLayers_length]
    rfl
  rw [keysOf_state_dict, hlen]

theorem mem_mismatchesOf_iff {own sd : StateDict} (hnd : (keysOf own).Nodup)
    (k : ParamKey) :
    (∃ s c, LoadMsg.sizeMismatch k s c ∈ mismatchesOf own sd) ↔ Incompat own sd k := by
  rw [mismatchesOf]
  constructor
  · rintro ⟨s, c, hm⟩
    rw [List.mem_filterMap] at hm
    obtain ⟨⟨pk, pv⟩, hp, hf⟩ := hm
    cases hsd : sdFind pk sd with
    | none =>
      rw [mismatchAt_eq_none hsd] at hf
      cases hf
    | some t =>
      rw [mismatchAt_eq_some hsd] at hf
      by_cases hshape : t.shape = pv.shape
      · rw [if_pos hshape] at hf
        cases hf
      · rw [if_neg hshape] at hf
        injection hf with hf2
        injection hf2 with hk1 hk2 hk3
        subst hk1
        exact ⟨pv, t, sdFind_of_mem_nodup hnd hp, hsd, hshape⟩
  · rintro ⟨t, u, hfo, hfs, hne⟩
    refine ⟨u.shape, t.shape, ?_⟩
    rw [List.mem_filterMap]
    refine ⟨(k, t), sdFind_some_mem hfo, ?_⟩
    rw [mismatchAt_eq_some hfs]
    exact if_neg hne

theorem mismatchesOf_all_size {own sd : StateDict} :
    ∀ m ∈ mismatchesOf own sd, ∃ k s c, m = LoadMsg.sizeMismatch k s c := by
  intro m hm
  rw [mismatchesOf, List.mem_filterMap] at hm
  obtain ⟨⟨pk, pv⟩, hp, hf⟩ := hm
  cases hsd : sdFind pk sd with
  | none =>
    rw [mismatchAt_eq_none hsd] at hf
    cases hf
  | some t =>
    rw [mismatchAt_eq_some hsd] at hf
    by_cases hshape : t.shape = pv.shape
    · rw [if_pos hshape] at hf
      cases hf
    · rw [if_neg hshape] at hf
      injection hf with hf2
      exact ⟨pk, t.shape, pv.shape, hf2.symm⟩

theorem shape_vec_zeros (n : Nat) : (Tensor.vec (zerosVec n)).shape = [n] := by
  simp [Tensor.shape, zerosVec]

theorem sdFind_hiddenBias_chain : ∀ (ws : List Nat) (nIn base i : Nat)
    (h : i < ws.length),
    sdFind (.hiddenBias (base + i)) (hiddenEntries base (chainLayers nIn ws)) =
      some (.vec (zerosVec (ws.get ⟨i, h⟩))) := by
  intro ws
  induction ws with
  | nil => intro nIn base i h; simp at h
  | cons w ws ih =>
    intro nIn base i h
    cases i with
    | zero =>
      simp only [chainLayers, hiddenEntries, Nat.add_zero, mkLinear]
      simp [sdFind]
    | succ i =>
      have hne : base ≠ base + (i + 1) := by omega
      simp only [chainLayers, hiddenEntries, mkLinear]
      rw [sdFind]
      rw [if_neg (by simp)]
      rw [sdFind]
      rw [if_neg (by simp [hne])]
      have := ih w (base + 1) i (by simpa using h)
      rw [show base + 1 + i = base + (i + 1) from by omega] at this
      rw [this]
      rfl

theorem sdFind_hiddenBias_build (inS outS a : Nat) (hs : List Nat) (i : Nat)
    (h : i < hs.length + 1) :
    sdFind (.hiddenBias i) (Network.build inS outS a hs).state_dict =
      some (.vec (zerosVec ((a :: hs).get ⟨i, by simpa using h⟩))) := by
  rw [Network.state_dict, sdFind_append]
  have hmain := sdFind_hiddenBias_chain (a :: hs) inS 0 i (by simpa using h)
  rw [Nat.zero_add] at hmain
  rw [show (Network.build inS outS a hs).hidden_layers =
    chainLayers inS (a :: hs) from rfl, hmain]
  rfl

/-- C2 (amended): loading a saved model's parameter tensors into a network
whose declared hidden-layer widths differ from the recorded ones *while
having the same number of hidden layers* fails with a shape-mismatch
error that enumerates every incompatible tensor and only those; when every
declared width equals the recorded one, `load_state_dict` succeeds with
all keys matched.  (With a different number of hidden layers the failure
additionally reports missing/unexpected keys and can contain no size
mismatch at all — see the counterexample.) -/
theorem load_state_dict_width_spec (inS outS a b : Nat) (hs1 hs2 : List Nat)
    (hlen : hs1.length = hs2.length) :
    ((a :: hs1 ≠ b :: hs2) →
      load_state_dict (Network.build inS outS a hs1)
          (Network.build inS outS b hs2).state_dict =
        .error (mismatchesOf (Network.build inS outS a hs1).state_dict
          (Network.build inS outS b hs2).state_dict) ∧
      mismatchesOf (Network.build inS outS a hs1).state_dict
          (Network.build inS outS b hs2).state_dict ≠ [] ∧
      (∀ m ∈ mismatchesOf (Network.build inS outS a hs1).state_dict
          (Network.build inS outS b hs2).state_dict,
        ∃ k s c, m = LoadMsg.sizeMismatch k s c) ∧
      (∀ k, (∃ s c, LoadMsg.sizeMismatch k s c ∈
          mismatchesOf (Network.build inS outS a hs1).state_dict
            (Network.build inS outS b hs2).state_dict) ↔
        Incompat (Network.build inS outS a hs1).state_dict
          (Network.build inS outS b hs2).state_dict k)) ∧
    ((a :: hs1 = b :: hs2) →
      load_state_dict (Network.build inS outS a hs1)
          (Network.build inS outS b hs2).state_dict =
        .ok ((Network.build inS outS a hs1).loadParams
          (Network.build inS outS b hs2).state_dict)) := by
  have hkeys : keysOf (Network.build inS outS a hs1).state_dict =
      keysOf (Network.build inS outS b hs2).state_dict := by
    rw [keysOf_build, keysOf_build, hlen]
  have hnd : (keysOf (Network.build inS outS a hs1).state_dict).Nodup := by
    rw [keysOf_build]
    exact hiddenKeys_out_nodup _ 0
  constructor
  · intro hneq
    have hlen2 : (a :: hs1).length = (b :: hs2).length := by
      simp [hlen]
    have hex : ∃ i, ∃ h1 : i < (a :: hs1).length,
        (a :: hs1).get ⟨i, h1⟩ ≠ (b :: hs2).get ⟨i, hlen2 ▸ h1⟩ := by
      by_contra hcon
      push_neg at hcon
      exact hneq (List.ext_get hlen2 (fun i h1 h2 => hcon i h1))
    obtain ⟨i, h1, hid⟩ := hex
    have hinc : Incompat (Network.build inS outS a hs1).state_dict
        (Network.build inS outS b hs2).state_dict (.hiddenBias i) := by
      refine ⟨.vec (zerosVec ((a :: hs1).get ⟨i, h1⟩)),
        .vec (zerosVec ((b :: hs2).get ⟨i, hlen2 ▸ h1⟩)), ?_, ?_, ?_⟩
      · exact sdFind_hiddenBias_build inS outS a hs1 i (by simpa using h1)
      · exact sdFind_hiddenBias_build inS outS b hs2 i
          (by simpa [← hlen] using h1)
      · rw [shape_vec_zeros, shape_vec_zeros]
        intro hcontr
        injection hcontr with hv
        exact hid hv.symm
    have hmem := (mem_mismatchesOf_iff hnd (.hiddenBias i)).2 hinc
    obtain ⟨s, c, hm⟩ := hmem
    have hnil : mismatchesOf (Network.build inS outS a hs1).state_dict
        (Network.build inS outS b hs2).state_dict ≠ [] :=
      List.ne_nil_of_mem hm
    refine ⟨?_, hnil, mismatchesOf_all_size, fun k => mem_mismatchesOf_iff hnd k⟩
    rw [load_state_dict_eq_of_keys hkeys, if_neg hnil]
  · intro heq
    injection heq with ha hhs
    subst ha
    subst hhs
    exact load_state_dict_ok rfl hnd

/-- Witness for C2 at concrete widths: hidden widths `[1]` against
recorded `[2]` (same layer count) produce the enumerated shape-mismatch
failure. -/
theorem load_state_dict_width_spec_witness :
    load_state_dict (Network.build 2 1 1 []) (Network.build 2 1 2 []).state_dict =
        .error (mismatchesOf (Network.build 2 1 1 []).state_dict
          (Network.build 2 1 2 []).state_dict) ∧
      mismatchesOf (Network.build 2 1 1 []).state_dict
          (Network.build 2 1 2 []).state_dict ≠ [] ∧
      (∀ m ∈ mismatchesOf (Network.build 2 1 1 []).state_dict
          (Network.build 2 1 2 []).state_dict,
        ∃ k s c, m = LoadMsg.sizeMismatch k s c) ∧
      (∀ k, (∃ s c, LoadMsg.sizeMismatch k s c ∈
          mismatchesOf (Network.build 2 1 1 []).state_dict
            (Network.build 2 1 2 []).state_dict) ↔
        Incompat (Network.build 2 1 1 []).state_dict
          (Network.build 2 1 2 []).state_dict k) :=
  (load_state_dict_width_spec 2 1 1 2 [] [] rfl).1 (by decide)

/-- Counterexample to C2 as stated: a target with one hidden layer loaded
from a checkpoint recorded with two hidden layers (widths `[1]` vs
`[1, 1]`) fails, but the error is an unexpected-keys report containing no
shape mismatch at all. -/
theorem load_state_dict_layer_count_counterexample :
    (Network.build 2 1 1 []).hiddenWidths ≠ (Network.build 2 1 1 [1]).hiddenWidths ∧
      load_state_dict (Network.build 2 1 1 [])
          (Network.build 2 1 1 [1]).state_dict =
        .error [LoadMsg.unexpectedKeys [.hiddenWeight 1, .hiddenBias 1]] ∧
      (∀ m ∈ [LoadMsg.unexpectedKeys [ParamKey.hiddenWeight 1, ParamKey.hiddenBias 1]],
        ∀ k s c, m ≠ LoadMsg.sizeMismatch k s c) := by
  refine ⟨by decide, by rfl, ?_⟩
  intro m hm k s c hcon
  rw [List.mem_singleton] at hm
  subst hm
  cases hcon

/-! ### Checkpoint contents (C3) -/

/-- C3: the checkpoint written to persistent storage has exactly the keys
`input_size` (an integer), `output_size` (an integer), `hidden_layers`
(the ordered list of each hidden layer's `out_features`) and `state_dict`
(the parameter-name-to-tensor mapping). -/
theorem checkpoint_keys_exact (net : Network) :
    (checkpoint_of net).map Prod.fst =
        ["input_size", "output_size", "hidden_layers", "state_dict"] ∧
      cpFind "input_size" (checkpoint_of net) = some (.nat net.input_size) ∧
      cpFind "output_size" (checkpoint_of net) = some (.nat net.output_size) ∧
      cpFind "hidden_layers" (checkpoint_of net) =
        some (.natList (net.hidden_layers.map Linear.out_features)) ∧
      cpFind "state_dict" (checkpoint_of net) = some (.dict net.state_dict) :=
  ⟨rfl, rfl, rfl, rfl, rfl⟩

/-! ### Missing checkpoint keys (C8) -/

/-- C8 (amended): `load_checkpoint` requires all four keys.  A checkpoint
missing one of `input_size`, `output_size`, `hidden_layers` fails with a
key-lookup error naming the first missing one (in the constructor's
argument order); a checkpoint carrying those three as well-formed values
(two integers and a nonempty integer list) but missing `state_dict` fails
with a key-lookup error on `state_dict`.  In particular a bare state dict,
as saved earlier in the notebook, fails on `input_size`.  (When one of the
first three values is ill-formed the failure can instead be the
constructor's type/index error — see the counterexample.) -/
theorem load_checkpoint_missing_key (cp : Checkpoint) :
    (cpFind "input_size" cp = none →
      load_checkpoint cp = .error (.keyError "input_size")) ∧
    (∀ v, cpFind "input_size" cp = some v → cpFind "output_size" cp = none →
      load_checkpoint cp = .error (.keyError "output_size")) ∧
    (∀ v w, cpFind "input_size" cp = some v → cpFind "output_size" cp = some w →
      cpFind "hidden_layers" cp = none →
      load_checkpoint cp = .error (.keyError "hidden_layers")) ∧
    (∀ nIn nOut h0 hs, cpFind "input_size" cp = some (.nat nIn) →
      cpFind "output_size" cp = some (.nat nOut) →
      cpFind "hidden_layers" cp = some (.natList (h0 :: hs)) →
      cpFind "state_dict" cp = none →
      load_checkpoint cp = .error (.keyError "state_dict")) := by
  refine ⟨?_, ?_, ?_, ?_⟩
  · intro h1
    rw [load_checkpoint, h1]
  · intro v h1 h2
    rw [load_checkpoint, h1, h2]
  · intro v w h1 h2 h3
    rw [load_checkpoint, h1, h2, h3]
  · intro nIn nOut h0 hs h1 h2 h3 h4
    rw [load_checkpoint, h1, h2, h3, h4]

/-- Witness for C8: a checkpoint holding only `output_size` fails with the
key-lookup error on `input_size`. -/
theorem load_checkpoint_missing_key_witness :
    load_checkpoint [("output_size", PVal.nat 5)] =
      .error (.keyError "input_size") :=
  (load_checkpoint_missing_key [("output_size", PVal.nat 5)]).1 rfl

/-- Counterexample to C8 as stated: a checkpoint missing `state_dict` whose
`hidden_layers` value is the empty list makes the constructor raise its
index error before the `state_dict` lookup, so the failure is not a
key-lookup error. -/
theorem load_checkpoint_missing_key_counterexample :
    cpFind "state_dict" [("input_size", PVal.nat 2), ("output_size", PVal.nat 3),
        ("hidden_layers", PVal.natList [])] = none ∧
      load_checkpoint [("input_size", PVal.nat 2), ("output_size", PVal.nat 3),
        ("hidden_layers", PVal.natList [])] = .error .indexError ∧
      (∀ k, LoadError.indexError ≠ LoadError.keyError k) := by
  refine ⟨rfl, rfl, ?_⟩
  intro k hcon
  cases hcon

/-! ### Batch size of the demonstration step (C9) -/

theorem chunks_length (c : Nat) : ∀ (r : Nat) (d : List ℚ),
    (chunks c r d).length = r := by
  intro r
  induction r with
  | zero => intro d; rfl
  | succ r ih =>
    intro d
    rw [chunks, List.length_cons, ih]

theorem demoStep_eq (m : SeqModel) (images : List (List ℚ)) (labels : List Nat) :
    demoStep m images labels = criterionSizeCheck 64 labels.length := by
  rw [demoStep, List.length_map, resizeBatch, chunks_length]

theorem loopStep_eq (m : SeqModel) (images : List (List ℚ)) (labels : List Nat) :
    loopStep m images labels = criterionSizeCheck images.length labels.length := by
  rw [loopStep, List.length_map, resizeBatch, chunks_length]

/-- C9 (amended): the single demonstration training step requires its batch
to contain exactly 64 images — with any other batch size (and the matching
number of labels) it fails at the loss computation's batch-size check —
while the full training loop's per-batch step succeeds on every batch
size, including a final partial batch.  (The step does *not* require 784
elements per image: `resize_` silently pads or truncates the data — see
the counterexample.) -/
theorem training_step_batch_size (m : SeqModel) (images : List (List ℚ))
    (labels : List Nat) (hlen : labels.length = images.length) :
    (demoStep m images labels = .ok () ↔ images.length = 64) ∧
      loopStep m images labels = .ok () := by
  constructor
  · rw [demoStep_eq, criterionSizeCheck, hlen]
    by_cases h : (64 : Nat) = images.length
    · rw [if_pos h]
      exact iff_of_true rfl h.symm
    · rw [if_neg h]
      exact iff_of_false (by intro hcon; cases hcon) (fun hc => h hc.symm)
  · rw [loopStep_eq, criterionSizeCheck, hlen, if_pos rfl]

/-- Witness for C9 at concrete batches: a 32-image batch (a final partial
MNIST batch) makes the demonstration step fail while the loop handles it;
a 64-image batch satisfies the demonstration step. -/
theorem training_step_batch_size_witness :
    (¬ demoStep seqModel784 (List.replicate 32 (List.replicate 784 (0 : ℚ)))
        (List.replicate 32 0) = .ok ()) ∧
      loopStep seqModel784 (List.replicate 32 (List.replicate 784 (0 : ℚ)))
        (List.replicate 32 0) = .ok () := by
  have h := training_step_batch_size seqModel784
    (List.replicate 32 (List.replicate 784 (0 : ℚ))) (List.replicate 32 0)
    (by rw [List.length_replicate, List.length_replicate])
  refine ⟨?_, h.2⟩
  intro hcon
  have := h.1.1 hcon
  rw [List.length_replicate] at this
  cases this

/-- Counterexample to C9 as stated: a batch of 64 one-entry images — far
from 784 elements each — makes the demonstration step succeed, because
`resize_` pads the storage to 64×784 without any error. -/
theorem training_step_image_size_counterexample :
    (∀ img ∈ (List.replicate 64 [(1 : ℚ)] : List (List ℚ)), img.length ≠ 784) ∧
      demoStep seqModel784 (List.replicate 64 [(1 : ℚ)])
        (List.replicate 64 0) = .ok () := by
  constructor
  · intro img hm
    rw [List.eq_of_mem_replicate hm]
    decide
  · rw [demoStep_eq, List.length_replicate]
    rfl

/-! ### State-dict contents (C10) -/

/-- C10: the model's state dict maps parameter names to current values
with exactly one weight and one bias entry per linear layer (each hidden
layer, keyed by its index inside `hidden_layers`, then the output layer),
these keys are pairwise distinct, the checkpoint saves exactly this
mapping, and for the notebook's `Network(784, 10, [512, 256, 128])` the
rendered key names are exactly the `odict_keys` the notebook prints. -/
theorem state_dict_keys (net : Network) :
    keysOf net.state_dict =
        hiddenKeyList 0 net.hidden_layers.length ++
          [ParamKey.outputWeight, ParamKey.outputBias] ∧
      (keysOf net.state_dict).Nodup ∧
      cpFind "state_dict" (checkpoint_of net) = some (.dict net.state_dict) ∧
      (Network.build 784 10 512 [256, 128]).state_dict.map
          (fun p => ParamKey.render p.1) =
        ["hidden_layers.0.weight", "hidden_layers.0.bias",
          "hidden_layers.1.weight", "hidden_layers.1.bias",
          "hidden_layers.2.weight", "hidden_layers.2.bias",
          "output.weight", "output.bias"] := by
  refine ⟨keysOf_state_dict net, ?_, rfl, by rfl⟩
  rw [keysOf_state_dict]
  exact hiddenKeys_out_nodup _ 0

/-! ### Per-batch structure of the training loop (C4) -/

theorem filter_batchEvs : batchEvs.filter (fun ev => !isPrint ev) = batchEvs := rfl

theorem innerLoop_filter (L : Nat → ℚ) (P eD eT : Nat) : ∀ (k s : Nat) (r : ℚ),
    ((innerLoop L P eD eT k s r).2.2).filter (fun ev => !isPrint ev) =
      (List.replicate k batchEvs).flatten := by
  intro k
  induction k with
  | zero => intro s r; rfl
  | succ k ih =>
    intro s r
    rw [innerLoop, List.replicate_succ, List.flatten_cons]
    by_cases h : (s + 1) % P = 0
    · rw [if_pos h]
      show (batchEvs ++ Ev.lossPrint eD eT ((r + L (s + 1)) / (P : ℚ)) ::
          (innerLoop L P eD eT k (s + 1) 0).2.2).filter (fun ev => !isPrint ev) = _
      rw [List.filter_append, filter_batchEvs, List.filter_cons,
        if_neg (by simp [isPrint]), ih]
    · rw [if_neg h]
      show (batchEvs ++ (innerLoop L P eD eT k (s + 1) (r + L (s + 1))).2.2).filter
          (fun ev => !isPrint ev) = _
      rw [List.filter_append, filter_batchEvs, ih]

theorem epochsLoop_filter (L : Nat → ℚ) (P eT N : Nat) : ∀ (m eD s : Nat),
    ((epochsLoop L P eT N eD m s).2).filter (fun ev => !isPrint ev) =
      (List.replicate (m * N) batchEvs).flatten := by
  intro m
  induction m with
  | zero =>
    intro eD s
    rw [Nat.zero_mul]
    rfl
  | succ m ih =>
    intro eD s
    rw [epochsLoop]
    simp only [List.filter_append, innerLoop_filter, ih]
    rw [show (m + 1) * N = N + m * N from by ring, List.replicate_add,
      List.flatten_append]

theorem count_flatten_replicate (n : Nat) (l : List Ev) (a : Ev) :
    ((List.replicate n l).flatten).count a = n * l.count a := by
  induction n with
  | zero =>
    rw [Nat.zero_mul]
    rfl
  | succ n ih =>
    rw [List.replicate_succ, List.flatten_cons, List.count_append, ih]
    ring

/-- C4: for every batch the training loop performs, in order, the zero-grad
call, the forward pass, the loss computation, the backward pass and the
optimizer step — the non-print trace is exactly one such five-event block
per batch — and exactly one backward pass and one optimizer step occur per
batch (`epochs * N` of each overall). -/
theorem training_loop_batch_order (L : Nat → ℚ) (epochs N P : Nat) :
    (trainLoop L epochs N P).filter (fun ev => !isPrint ev) =
        (List.replicate (epochs * N) batchEvs).flatten ∧
      (trainLoop L epochs N P).count Ev.backward = epochs * N ∧
      (trainLoop L epochs N P).count Ev.stepOpt = epochs * N := by
  have hf : (trainLoop L epochs N P).filter (fun ev => !isPrint ev) =
      (List.replicate (epochs * N) batchEvs).flatten :=
    epochsLoop_filter L P epochs N epochs 1 0
  refine ⟨hf, ?_, ?_⟩
  · have h1 : ((trainLoop L epochs N P).filter
        (fun ev => !isPrint ev)).count Ev.backward =
        (trainLoop L epochs N P).count Ev.backward :=
      List.count_filter (by decide)
    rw [← h1, hf, count_flatten_replicate,
      show batchEvs.count Ev.backward = 1 from by decide, Nat.mul_one]
  · have h1 : ((trainLoop L epochs N P).filter
        (fun ev => !isPrint ev)).count Ev.stepOpt =
        (trainLoop L epochs N P).count Ev.stepOpt :=
      List.count_filter (by decide)
    rw [← h1, hf, count_flatten_replicate,
      show batchEvs.count Ev.stepOpt = 1 from by decide, Nat.mul_one]

/-! ### The stale running-loss printout (C7) -/

theorem innerLoop_steps (L : Nat → ℚ) (P eD eT : Nat) : ∀ (k s : Nat) (r : ℚ),
    (innerLoop L P eD eT k s r).1 = s + k := by
  intro k
  induction k with
  | zero => intro s r; rfl
  | succ k ih =>
    intro s r
    rw [innerLoop]
    by_cases h : (s + 1) % P = 0
    · rw [if_pos h]
      show (innerLoop L P eD eT k (s + 1) 0).1 = s + (k + 1)
      rw [ih]
      omega
    · rw [if_neg h]
      show (innerLoop L P eD eT k (s + 1) (r + L (s + 1))).1 = s + (k + 1)
      rw [ih]
      omega

theorem winSum_one (L : Nat → ℚ) (s : Nat) : winSum L s 1 = L (s + 1) := by
  rw [winSum, List.range_succ]
  simp

theorem winSum_succ_left (L : Nat → ℚ) (s d : Nat) :
    winSum L s (d + 1) = L (s + 1) + winSum L (s + 1) d := by
  rw [winSum, winSum, List.range_succ_eq_map, List.map_cons, List.map_map,
    List.sum_cons]
  congr 1
  congr 1
  refine List.map_congr_left ?_
  intro a _
  show L (s + (a + 1) + 1) = L (s + 1 + a + 1)
  congr 1
  omega

theorem winSum_pos (L : Nat → ℚ) (hpos : ∀ i, 0 < L i) (s d : Nat)
    (hd : 1 ≤ d) : 0 < winSum L s d := by
  rw [winSum]
  refine List.sum_pos _ ?_ ?_
  · intro x hx
    rw [List.mem_map] at hx
    obtain ⟨j, -, rfl⟩ := hx
    exact hpos _
  · simp
    omega

theorem innerLoop_first_print (L : Nat → ℚ) (P eD eT : Nat) :
    ∀ (d k s : Nat) (r : ℚ), 1 ≤ d → d ≤ k → (s + d) % P = 0 →
    (∀ j, 1 ≤ j → j < d → (s + j) % P ≠ 0) →
    ∃ C rest, (innerLoop L P eD eT k s r).2.2 =
        C ++ Ev.lossPrint eD eT ((r + winSum L s d) / (P : ℚ)) :: rest ∧
      ∀ ev ∈ C, isPrint ev = false := by
  intro d
  induction d with
  | zero => intro k s r h1; exact absurd h1 (by omega)
  | succ d ih =>
    intro k s r h1 hdk hmod hnon
    obtain ⟨k', rfl⟩ : ∃ k', k = k' + 1 := ⟨k - 1, by omega⟩
    rw [innerLoop]
    cases Nat.eq_zero_or_pos d with
    | inl hd0 =>
      subst hd0
      rw [if_pos hmod]
      refine ⟨batchEvs, (innerLoop L P eD eT k' (s + 1) 0).2.2, ?_, ?_⟩
      · show batchEvs ++ Ev.lossPrint eD eT ((r + L (s + 1)) / (P : ℚ)) :: _ = _
        rw [winSum_one]
      · intro ev hev
        simp [batchEvs] at hev
        rcases hev with rfl | rfl | rfl | rfl | rfl <;> rfl
    | inr hdpos =>
      have hne : (s + 1) % P ≠ 0 := hnon 1 (le_refl 1) (by omega)
      rw [if_neg hne]
      have hmod2 : (s + 1 + d) % P = 0 := by
        rw [show s + 1 + d = s + (d + 1) from by omega]
        exact hmod
      have harg : ∀ j, 1 ≤ j → j < d → (s + 1 + j) % P ≠ 0 := by
        intro j hj1 hj2
        rw [show s + 1 + j = s + (j + 1) from by omega]
        exact hnon (j + 1) (by omega) (by omega)
      obtain ⟨C, rest, htr, hC⟩ :=
        ih k' (s + 1) (r + L (s + 1)) hdpos (by omega) hmod2 harg
      have hval : r + L (s + 1) + winSum L (s + 1) d = r + winSum L s (d + 1) := by
        rw [winSum_succ_left]
        ring
      refine ⟨batchEvs ++ C, rest, ?_, ?_⟩
      · show batchEvs ++ (innerLoop L P eD eT k' (s + 1) (r + L (s + 1))).2.2 = _
        rw [htr, hval, List.append_assoc]
      · intro ev hev
        rcases List.mem_append.1 hev with h | h
        · simp [batchEvs] at h
          rcases h with rfl | rfl | rfl | rfl | rfl <;> rfl
        · exact hC ev h

theorem isPrintOf_false_of_not_print {ev : Ev} (h : isPrint ev = false) (n : Nat) :
    isPrintOf n ev = false := by
  cases ev <;> simp_all [isPrint, isPrintOf]

theorem innerLoop_no_other_print (L : Nat → ℚ) (P eD eT : Nat) :
    ∀ (k s : Nat) (r : ℚ) (n : Nat), n ≠ eD →
    ∀ ev ∈ (innerLoop L P eD eT k s r).2.2, isPrintOf n ev = false := by
  intro k
  induction k with
  | zero =>
    intro s r n hn ev hev
    simp [innerLoop] at hev
  | succ k ih =>
    intro s r n hn ev hev
    rw [innerLoop] at hev
    by_cases h : (s + 1) % P = 0
    · rw [if_pos h] at hev
      have hev2 : ev ∈ batchEvs ++ Ev.lossPrint eD eT ((r + L (s + 1)) / (P : ℚ)) ::
          (innerLoop L P eD eT k (s + 1) 0).2.2 := hev
      rcases List.mem_append.1 hev2 with hb | hc
      · simp [batchEvs] at hb
        rcases hb with rfl | rfl | rfl | rfl | rfl <;> rfl
      · rcases List.mem_cons.1 hc with rfl | ht
        · rw [isPrintOf]
          exact beq_eq_false_iff_ne.2 (Ne.symm hn)
        · exact ih (s + 1) 0 n hn ev ht
    · rw [if_neg h] at hev
      have hev2 : ev ∈ batchEvs ++
          (innerLoop L P eD eT k (s + 1) (r + L (s + 1))).2.2 := hev
      rcases List.mem_append.1 hev2 with hb | ht
      · simp [batchEvs] at hb
        rcases hb with rfl | rfl | rfl | rfl | rfl <;> rfl
      · exact ih (s + 1) (r + L (s + 1)) n hn ev ht

theorem epochsLoop_decomp (L : Nat → ℚ) (P eT N : Nat) :
    ∀ (e m eD s : Nat), e < m →
    ∃ A B, (epochsLoop L P eT N eD m s).2 =
        A ++ (innerLoop L P (eD + e) eT N (s + e * N) 0).2.2 ++ B ∧
      ∀ ev ∈ A, isPrintOf (eD + e) ev = false := by
  intro e
  induction e with
  | zero =>
    intro m eD s hm
    obtain ⟨m', rfl⟩ : ∃ m', m = m' + 1 := ⟨m - 1, by omega⟩
    rw [epochsLoop]
    refine ⟨[], (epochsLoop L P eT N (eD + 1) m' (innerLoop L P eD eT N s 0).1).2,
      ?_, by simp⟩
    rw [List.nil_append, Nat.zero_mul, Nat.add_zero, Nat.add_zero]
    rfl
  | succ e ih =>
    intro m eD s hm
    obtain ⟨m', rfl⟩ : ∃ m', m = m' + 1 := ⟨m - 1, by omega⟩
    rw [epochsLoop]
    obtain ⟨A, B, htr, hA⟩ :=
      ih m' (eD + 1) ((innerLoop L P eD eT N s 0).1) (by omega)
    refine ⟨(innerLoop L P eD eT N s 0).2.2 ++ A, B, ?_, ?_⟩
    · show (innerLoop L P eD eT N s 0).2.2 ++
          (epochsLoop L P eT N (eD + 1) m' (innerLoop L P eD eT N s 0).1).2 = _
      rw [htr, innerLoop_steps]
      rw [show eD + 1 + e = eD + (e + 1) from by omega]
      rw [show s + N + e * N = s + (e + 1) * N from by ring]
      simp [List.append_assoc]
    · intro ev hev
      rcases List.mem_append.1 hev with h | h
      · exact innerLoop_no_other_print L P eD eT N s 0 (eD + (e + 1))
          (by omega) ev h
      · have hres := hA ev h
        rw [show eD + 1 + e = eD + (e + 1) from by omega] at hres
        exact hres

/-- C7: the printed loss value is always `running_loss / print_every`, and
`running_loss` is reset at the start of every epoch while the global
`steps` counter is not.  For every epoch after the first whose first
printout comes `d < print_every` batches into the epoch (`d = P - (e*N)%P`
when `P` does not divide the `e*N` steps already taken), the loop prints
the sum of only those `d` batch losses divided by `print_every` — and,
with positive batch losses, that value understates the average of the
summed batch losses. -/
theorem stale_running_loss_print (L : Nat → ℚ) (epochs N P e : Nat)
    (hP : 0 < P) (_he : 1 ≤ e) (heE : e < epochs) (hmod : e * N % P ≠ 0)
    (hend : P - e * N % P ≤ N) (hpos : ∀ i, 0 < L i) :
    P - e * N % P < P ∧
      (∃ pre post, trainLoop L epochs N P =
          pre ++ Ev.lossPrint (e + 1) epochs
            (winSum L (e * N) (P - e * N % P) / (P : ℚ)) :: post ∧
        ∀ ev ∈ pre, isPrintOf (e + 1) ev = false) ∧
      winSum L (e * N) (P - e * N % P) / (P : ℚ) <
        winSum L (e * N) (P - e * N % P) / ((P - e * N % P : Nat) : ℚ) := by
  have htP : e * N % P < P := Nat.mod_lt _ hP
  have ht1 : 1 ≤ e * N % P := by omega
  have hd1 : 1 ≤ P - e * N % P := by omega
  have hdP : P - e * N % P < P := by omega
  have hq := Nat.div_add_mod (e * N) P
  have hmod0 : (e * N + (P - e * N % P)) % P = 0 := by
    have heq : e * N + (P - e * N % P) = P * (e * N / P) + P := by omega
    rw [heq, show P * (e * N / P) + P = P * (e * N / P + 1) from by ring,
      Nat.mul_mod_right]
  have hnon : ∀ j, 1 ≤ j → j < P - e * N % P → (e * N + j) % P ≠ 0 := by
    intro j hj1 hj2
    have heq : e * N + j = e * N % P + j + P * (e * N / P) := by omega
    rw [heq, Nat.add_mul_mod_self_left, Nat.mod_eq_of_lt (by omega)]
    omega
  obtain ⟨A, B, htr, hA⟩ := epochsLoop_decomp L P epochs N e epochs 1 0 heE
  rw [Nat.zero_add, show 1 + e = e + 1 from by omega] at htr
  have hA2 : ∀ ev ∈ A, isPrintOf (e + 1) ev = false := by
    intro ev hev
    have hres := hA ev hev
    rw [show 1 + e = e + 1 from by omega] at hres
    exact hres
  obtain ⟨C, rest, hin, hC⟩ := innerLoop_first_print L P (e + 1) epochs
    (P - e * N % P) N (e * N) 0 hd1 hend hmod0 hnon
  rw [zero_add] at hin
  refine ⟨hdP, ⟨A ++ C, rest ++ B, ?_, ?_⟩, ?_⟩
  · rw [trainLoop, htr, hin]
    simp [List.append_assoc]
  · intro ev hev
    rcases List.mem_append.1 hev with h | h
    · exact hA2 ev h
    · exact isPrintOf_false_of_not_print (hC ev h) (e + 1)
  · have hS : 0 < winSum L (e * N) (P - e * N % P) :=
      winSum_pos L hpos (e * N) (P - e * N % P) hd1
    have hcast : ((P - e * N % P : Nat) : ℚ) < ((P : Nat) : ℚ) := by
      exact_mod_cast hdP
    have hd0 : (0 : ℚ) < ((P - e * N % P : Nat) : ℚ) := by
      exact_mod_cast hd1
    exact div_lt_div_of_pos_left hS hd0 hcast

/-- Witness for C7 at concrete numbers: two epochs of three batches with
`print_every = 2` and unit batch losses; epoch 2's first print comes one
batch in and prints `1/2`, half the true unit average. -/
theorem stale_running_loss_print_witness :
    1 * 3 % 2 ≠ 0 ∧
      (2 - 1 * 3 % 2 < 2 ∧
        (∃ pre post, trainLoop (fun _ => (1 : ℚ)) 2 3 2 =
            pre ++ Ev.lossPrint (1 + 1) 2
              (winSum (fun _ => (1 : ℚ)) (1 * 3) (2 - 1 * 3 % 2) /
                ((2 : Nat) : ℚ)) :: post ∧
          ∀ ev ∈ pre, isPrintOf (1 + 1) ev = false) ∧
        winSum (fun _ => (1 : ℚ)) (1 * 3) (2 - 1 * 3 % 2) / ((2 : Nat) : ℚ) <
          winSum (fun _ => (1 : ℚ)) (1 * 3) (2 - 1 * 3 % 2) /
            ((2 - 1 * 3 % 2 : Nat) : ℚ)) :=
  ⟨by decide, stale_running_loss_print (fun _ => 1) 2 3 2 1 (by decide)
    (by decide) (by decide) (by decide) (by decide) (fun i => one_pos)⟩

/-! ### Periodic validation in the Part 6 training loop (C5) -/

theorem periodicIn_cons (P s k : Nat) :
    periodicIn P s (k + 1) =
      (if (s + 1) % P = 0 then [s + 1] else []) ++ periodicIn P (s + 1) k := by
  rw [periodicIn, periodicIn, List.range_succ_eq_map, List.filterMap_cons,
    List.filterMap_map]
  have hfun : ((fun j => if (s + j + 1) % P = 0 then some (s + j + 1) else none) ∘
      Nat.succ) =
      (fun j => if (s + 1 + j + 1) % P = 0 then some (s + 1 + j + 1) else none) := by
    funext j
    show (if (s + (j + 1) + 1) % P = 0 then some (s + (j + 1) + 1) else none) = _
    rw [show s + (j + 1) + 1 = s + 1 + j + 1 from by omega]
  rw [hfun]
  by_cases h : (s + 1) % P = 0
  · simp [h]
  · simp [h]

theorem periodicIn_add (P : Nat) : ∀ (a b s : Nat),
    periodicIn P s (a + b) = periodicIn P s a ++ periodicIn P (s + a) b := by
  intro a
  induction a with
  | zero =>
    intro b s
    rw [Nat.zero_add, Nat.add_zero]
    rfl
  | succ a ih =>
    intro b s
    rw [show a + 1 + b = (a + b) + 1 from by omega, periodicIn_cons,
      periodicIn_cons, ih]
    rw [show s + 1 + a = s + (a + 1) from by omega]
    simp [List.append_assoc]

theorem evalSteps_append (a b : List TEv) :
    evalSteps (a ++ b) = evalSteps a ++ evalSteps b := by
  simp [evalSteps]

theorem fcInner_evalSteps (L : Nat → ℚ) (V : Nat → ℚ × ℚ) (P : Nat) :
    ∀ (k s : Nat), evalSteps (fcInner L V P k s) = periodicIn P s k := by
  intro k
  induction k with
  | zero => intro s; rfl
  | succ k ih =>
    intro s
    rw [fcInner, periodicIn_cons]
    by_cases h : (s + 1) % P = 0
    · rw [if_pos h, if_pos h]
      show (s + 1) :: evalSteps (fcInner L V P k (s + 1)) = (s + 1) ::
        periodicIn P (s + 1) k
      rw [ih]
    · rw [if_neg h, if_neg h]
      show evalSteps (fcInner L V P k (s + 1)) = [] ++ periodicIn P (s + 1) k
      rw [ih, List.nil_append]

theorem isBatch_batchStep (v : ℚ) : TEv.isBatch (.batchStep v) = true := rfl

theorem isBatch_evalPass (s : Nat) (a b : ℚ) :
    TEv.isBatch (.evalPass s a b) = false := rfl

theorem fcInner_batch_count (L : Nat → ℚ) (V : Nat → ℚ × ℚ) (P : Nat) :
    ∀ (k s : Nat), (fcInner L V P k s).countP (fun ev => TEv.isBatch ev) = k := by
  intro k
  induction k with
  | zero => intro s; rfl
  | succ k ih =>
    intro s
    rw [fcInner]
    by_cases h : (s + 1) % P = 0
    · rw [if_pos h]
      simp [List.countP_cons, isBatch_batchStep, isBatch_evalPass, ih]
    · rw [if_neg h]
      simp [List.countP_cons, isBatch_batchStep, isBatch_evalPass, ih]

theorem fcInner_eval_oracle (L : Nat → ℚ) (V : Nat → ℚ × ℚ) (P : Nat) :
    ∀ (k s : Nat), ∀ ev ∈ fcInner L V P k s, ∀ st tl acc,
      ev = TEv.evalPass st tl acc → st % P = 0 ∧ (tl, acc) = V st := by
  intro k
  induction k with
  | zero =>
    intro s ev hev
    simp [fcInner] at hev
  | succ k ih =>
    intro s ev hev st tl acc hform
    rw [fcInner] at hev
    by_cases h : (s + 1) % P = 0
    · rw [if_pos h] at hev
      rcases List.mem_cons.1 hev with rfl | hev2
      · cases hform
      · rcases List.mem_cons.1 hev2 with rfl | hev3
        · injection hform with h1 h2 h3
          subst h1
          subst h2
          subst h3
          exact ⟨h, rfl⟩
        · exact ih (s + 1) ev hev3 st tl acc hform
    · rw [if_neg h] at hev
      rcases List.mem_cons.1 hev with rfl | hev2
      · cases hform
      · exact ih (s + 1) ev hev2 st tl acc hform

theorem fcEpochs_evalSteps (L : Nat → ℚ) (V : Nat → ℚ × ℚ) (P N : Nat) :
    ∀ (m s : Nat), evalSteps (fcEpochs L V P N m s) = periodicIn P s (m * N) := by
  intro m
  induction m with
  | zero =>
    intro s
    rw [Nat.zero_mul]
    rfl
  | succ m ih =>
    intro s
    rw [fcEpochs, evalSteps_append, fcInner_evalSteps, ih,
      show (m + 1) * N = N + m * N from by ring, periodicIn_add]

theorem fcEpochs_batch_count (L : Nat → ℚ) (V : Nat → ℚ × ℚ) (P N : Nat) :
    ∀ (m s : Nat),
      (fcEpochs L V P N m s).countP (fun ev => TEv.isBatch ev) = m * N := by
  intro m
  induction m with
  | zero =>
    intro s
    rw [Nat.zero_mul]
    rfl
  | succ m ih =>
    intro s
    rw [fcEpochs, List.countP_append, fcInner_batch_count, ih]
    ring

/-- C5 (spec-modelled from `fc_model.train`): the training loop iterates
over every batch (`epochs * N` batch events, each carrying its loss),
performs an evaluation pass over the held-out split exactly at every
`print_every`-th global step, and every evaluation pass records the test
loss and the accuracy the validation oracle computes at that step. -/
theorem fc_train_periodic_validation (L : Nat → ℚ) (V : Nat → ℚ × ℚ)
    (epochs N P : Nat) :
    (fcTrain L V epochs N P).countP (fun ev => TEv.isBatch ev) = epochs * N ∧
      evalSteps (fcTrain L V epochs N P) = periodicIn P 0 (epochs * N) ∧
      (∀ ev ∈ fcTrain L V epochs N P, ∀ st tl acc,
        ev = TEv.evalPass st tl acc → st % P = 0 ∧ (tl, acc) = V st) := by
  refine ⟨fcEpochs_batch_count L V P N epochs 0,
    fcEpochs_evalSteps L V P N epochs 0, ?_⟩
  rw [fcTrain]
  have hmem : ∀ (m s : Nat), ∀ ev ∈ fcEpochs L V P N m s, ∀ st tl acc,
      ev = TEv.evalPass st tl acc → st % P = 0 ∧ (tl, acc) = V st := by
    intro m
    induction m with
    | zero =>
      intro s ev hev
      simp [fcEpochs] at hev
    | succ m ih =>
      intro s ev hev st tl acc hform
      rw [fcEpochs] at hev
      rcases List.mem_append.1 hev with h | h
      · exact fcInner_eval_oracle L V P N s ev h st tl acc hform
      · exact ih (s + N) ev h st tl acc hform
  exact hmem epochs 0

/-! ### Architecture of the classifier (C6) -/

theorem chainLayers_in_features : ∀ (ws : List Nat) (nIn : Nat),
    (chainLayers nIn ws).map Linear.in_features = (nIn :: ws).dropLast := by
  intro ws
  induction ws with
  | nil => intro nIn; rfl
  | cons w ws ih =>
    intro nIn
    rw [chainLayers, List.map_cons, ih]
    rfl

theorem apply_length_mk (nIn nOut : Nat) (x : List ℚ) :
    ((mkLinear nIn nOut).apply x).length = nOut := by
  simp [Linear.apply, mkLinear, zerosMat, zerosVec]

/-- C6 (spec-modelled from `fc_model.Network` and the architecture the
notebook prints): the classifier is a configurable multi-layer
feed-forward network — its hidden widths are exactly the configured list,
consecutive layers are wired input-to-output, the forward pass runs each
hidden linear transform through the non-linearity and dropout in turn, and
a final linear layer (fed by the last hidden width) produces the `outS`
class scores. -/
theorem network_architecture (inS outS h0 : Nat) (hs : List Nat)
    (drop : List ℚ → List ℚ) (x : List ℚ) :
    (Network.build inS outS h0 hs).hiddenWidths = h0 :: hs ∧
      (Network.build inS outS h0 hs).hidden_layers.map Linear.in_features =
        (inS :: h0 :: hs).dropLast ∧
      (Network.build inS outS h0 hs).output.in_features = hs.getLastD h0 ∧
      (Network.build inS outS h0 hs).output_size = outS ∧
      Network.forward drop (Network.build inS outS h0 hs) x =
        (Network.build inS outS h0 hs).output.apply
          ((Network.build inS outS h0 hs).hidden_layers.foldl
            (fun a l => drop ((l.apply a).map relu)) x) ∧
      (Network.forward drop (Network.build inS outS h0 hs) x).length = outS := by
  refine ⟨chainLayers_widths inS (h0 :: hs), chainLayers_in_features (h0 :: hs) inS,
    rfl, rfl, rfl, ?_⟩
  exact apply_length_mk (hs.getLastD h0) outS _

end FcModel
